import Mathlib

/-!
Verification of the position-aggregation core of the stocks backend
(`src/main.py`, `src/schemas.py`).

Numbers are modelled as exact rationals (`ℚ`); Python's `round(x, n)`
is modelled as round-half-to-even on the scaled rational.  Stored order
documents are schemaless, so every field of a raw document is optional,
mirroring Python's `dict.get`.  The market data gateway is a parameter:
a function from a symbol list to either a failure (non-200 status) or a
list of quotes.  `getPositions` also returns the log of gateway calls
it made, so that claims about call batching can be stated.
-/

set_option maxRecDepth 4000

/-- Python `round(x, n)`: round half to even at `n` decimal places. -/
def py_round (x : ℚ) (n : ℕ) : ℚ :=
  let m : ℚ := (10 : ℚ) ^ n
  let y := x * m
  let f : ℤ := ⌊y⌋
  let frac : ℚ := y - f
  let r : ℤ :=
    if frac < 1/2 then f
    else if 1/2 < frac then f + 1
    else if f % 2 = 0 then f else f + 1
  (r : ℚ) / m

/-- Python's `str.upper()` on symbol strings: uppercase every character.
(Defined by structural recursion over the character list so that it is
kernel-computable.) -/
def upperStr (s : String) : String :=
  ⟨s.data.map Char.toUpper⟩

/-- A raw order document as read back from the document store.  Every
field is optional because documents are schemaless (`o.get(...)`). -/
structure RawOrder where
  user_id : Option String
  status : Option String
  symbol : Option String
  side : Option String
  quantity : Option ℚ
  price : Option ℚ
deriving DecidableEq, Repr

/-- `(1 if o.get("side") == "buy" else -1)` in `positions` (main.py:249). -/
def sideMult (sd : Option String) : ℚ :=
  if sd = some "buy" then 1 else -1

/-- `qty = float(o.get("quantity", 0)) * (1 if side == "buy" else -1)`
(main.py:249). -/
def orderQty (o : RawOrder) : ℚ :=
  o.quantity.getD 0 * sideMult o.side

/-- `cost = float(o.get("price", 0)) * float(o.get("quantity", 0)) * (...)`
(main.py:250). -/
def orderCost (o : RawOrder) : ℚ :=
  o.price.getD 0 * o.quantity.getD 0 * sideMult o.side

/-- One entry of the `agg` dict of `positions`:
`{"symbol": sym, "qty": ..., "cost": ...}` (main.py:252). -/
structure Agg where
  symbol : String
  qty : ℚ
  cost : ℚ
deriving DecidableEq, Repr

/-- Errors a `positions` request can end in (both surface as an HTTP
error, never as a partial list). -/
inductive PosError where
  /-- `o.get("symbol").upper()` raised because the symbol field is absent. -/
  | missingSymbol : PosError
  /-- `fetch_quotes` raised 502 because the upstream call failed (main.py:90-91). -/
  | gatewayFailed : PosError
deriving DecidableEq, Repr

/-- The `agg` dict update of main.py:251-254: insert the symbol with zero
accumulators if absent (at the end, as Python dicts preserve insertion
order), then add `q` and `c` to its accumulators. -/
def upsert : List Agg → String → ℚ → ℚ → List Agg
  | [], s, q, c => [⟨s, q, c⟩]
  | a :: rest, s, q, c =>
    if a.symbol = s then ⟨a.symbol, a.qty + q, a.cost + c⟩ :: rest
    else a :: upsert rest s q c

/-- The aggregation loop of main.py:247-254, starting from accumulator
state `agg`.  An order without a symbol field makes the whole request
fail (`None.upper()` raises, caught by the endpoint's blanket handler). -/
def aggregateFrom : List Agg → List RawOrder → Except PosError (List Agg)
  | agg, [] => .ok agg
  | agg, o :: rest =>
    match o.symbol with
    | none => .error .missingSymbol
    | some s => aggregateFrom (upsert agg (upperStr s) (orderQty o) (orderCost o)) rest

/-- A quote returned by the market data gateway (symbol and last price). -/
structure Quote where
  symbol : String
  price : ℚ
deriving DecidableEq, Repr

/-- `qmap = {q.symbol: q for q in quotes}; qmap.get(sym)` (main.py:257,262):
dict comprehension keeps the LAST quote for a duplicated symbol. -/
def qlookup : List Quote → String → Option ℚ
  | [], _ => none
  | q :: rest, s =>
    match qlookup rest s with
    | some p => some p
    | none => if q.symbol = s then some q.price else none

/-- A returned position record (main.py:265-271). -/
structure Position where
  symbol : String
  quantity : ℚ
  avg_price : ℚ
  last : ℚ
  unrealized_pnl : ℚ
deriving DecidableEq, Repr

/-- The body of the output loop of main.py:259-271 for one `agg` entry:
`avg_cost = (cost / abs(qty)) if qty != 0 else 0.0`;
`last = float(mkt.price) if mkt else 0.0`;
`pnl = (last - avg_cost) * qty`; fields rounded as in the source. -/
def mkPosition (quotes : List Quote) (a : Agg) : Position :=
  let avg_cost : ℚ := if a.qty ≠ 0 then a.cost / |a.qty| else 0
  let last : ℚ := (qlookup quotes a.symbol).getD 0
  let pnl : ℚ := (last - avg_cost) * a.qty
  { symbol := a.symbol
    quantity := a.qty
    avg_price := py_round avg_cost 4
    last := last
    unrealized_pnl := py_round pnl 2 }

/-- The market data gateway: one batched call taking the symbol list,
failing as a unit (non-200) or returning quotes (main.py:85-105). -/
def Gateway : Type := List String → Except Unit (List Quote)

/-- The `positions` endpoint (main.py:240-274) for the already-queried
filled orders of one user.  Besides the result it returns the list of
gateway calls made (each element one batched call's symbol argument). -/
def getPositions (gw : Gateway) (orders : List RawOrder) :
    Except PosError (List Position) × List (List String) :=
  match aggregateFrom [] orders with
  | .error e => (.error e, [])
  | .ok agg =>
    if (agg.map Agg.symbol).isEmpty then (.ok [], [])
    else
      match gw (agg.map Agg.symbol) with
      | .error _ => (.error .gatewayFailed, [agg.map Agg.symbol])
      | .ok quotes => (.ok (agg.map (mkPosition quotes)), [agg.map Agg.symbol])

/-! ### Direct per-symbol sums over the order list -/

/-- The orders whose (uppercased) symbol is `s`. -/
def ordersFor (orders : List RawOrder) (s : String) : List RawOrder :=
  orders.filter (fun o => o.symbol.map upperStr = some s)

/-- Net signed quantity accumulated for symbol `s`. -/
def signedQty (orders : List RawOrder) (s : String) : ℚ :=
  ((ordersFor orders s).map orderQty).sum

/-- Net signed cost accumulated for symbol `s`. -/
def signedCost (orders : List RawOrder) (s : String) : ℚ :=
  ((ordersFor orders s).map orderCost).sum

/-- The unrounded average cost the code computes for symbol `s`
(main.py:261): `cost / abs(qty)` — note the cost keeps its sign. -/
def avgCost (orders : List RawOrder) (s : String) : ℚ :=
  if signedQty orders s ≠ 0 then signedCost orders s / |signedQty orders s| else 0

/-- Symbol `s` has at least one order in the list. -/
def hasSymbol (orders : List RawOrder) (s : String) : Prop :=
  ∃ o ∈ orders, o.symbol.map upperStr = some s

instance (orders : List RawOrder) (s : String) : Decidable (hasSymbol orders s) :=
  inferInstanceAs (Decidable (∃ o ∈ orders, _))

/-- Sum of raw (unsigned) quantities for symbol `s`. -/
def qtySum (orders : List RawOrder) (s : String) : ℚ :=
  ((ordersFor orders s).map (fun o => o.quantity.getD 0)).sum

/-- Sum of `price * quantity` for symbol `s`. -/
def costSum (orders : List RawOrder) (s : String) : ℚ :=
  ((ordersFor orders s).map (fun o => o.price.getD 0 * o.quantity.getD 0)).sum

/-- Dict-style lookup of the qty accumulator (0 when absent). -/
def aggQty : List Agg → String → ℚ
  | [], _ => 0
  | a :: rest, s => if a.symbol = s then a.qty else aggQty rest s

/-- Dict-style lookup of the cost accumulator (0 when absent). -/
def aggCost : List Agg → String → ℚ
  | [], _ => 0
  | a :: rest, s => if a.symbol = s then a.cost else aggCost rest s

/-! ### The order schema and the create-order endpoint -/

/-- The request body of `POST /api/orders` (`OrderIn`, main.py:37-42):
no constraints beyond the field types. -/
structure OrderIn where
  user_id : String
  symbol : String
  side : String
  quantity : ℚ
  price : ℚ
deriving DecidableEq, Repr

/-- A validated stored order (`schemas.Order`, schemas.py:40-50). -/
structure Order where
  user_id : String
  symbol : String
  side : String
  quantity : ℚ
  price : ℚ
  status : String
deriving DecidableEq, Repr

/-- Pydantic validation of `schemas.Order` (schemas.py:40-50):
`side` a literal of {buy, sell}, `quantity > 0`, `price > 0`,
`status` a literal of {filled, cancelled, open}. -/
def mkOrder (uid sym sd : String) (quantity price : ℚ) (status : String) :
    Option Order :=
  if (sd = "buy" ∨ sd = "sell") ∧ 0 < quantity ∧ 0 < price ∧
      (status = "filled" ∨ status = "cancelled" ∨ status = "open")
  then some ⟨uid, sym, sd, quantity, price, status⟩
  else none

/-- `create_order` (main.py:220-228): builds the stored order with the
symbol uppercased and `status='filled'`; a validation failure is a
request failure (`none`). -/
def createOrder (i : OrderIn) : Option Order :=
  mkOrder i.user_id (upperStr i.symbol) i.side i.quantity i.price "filled"

/-- The document-store filter the `positions` endpoint queries with:
`{"user_id": user_id, "status": "filled"}` (main.py:244). -/
def positionsQueryFilter (uid : String) (o : Order) : Bool :=
  o.user_id = uid && o.status = "filled"

/-- A stored order read back as a raw document: every field present. -/
def Order.toRaw (o : Order) : RawOrder :=
  { user_id := some o.user_id
    status := some o.status
    symbol := some o.symbol
    side := some o.side
    quantity := some o.quantity
    price := some o.price }

/-! ### Concrete order histories and gateways used as test vectors -/

/-- One filled short sale: sell 5 AAPL at 100. -/
def ordC1 : List RawOrder :=
  [⟨some "u1", some "filled", some "AAPL", some "sell", some 5, some 100⟩]

/-- Gateway quoting AAPL at 90. -/
def gwC1 : Gateway := fun _ => Except.ok [⟨"AAPL", 90⟩]

/-- Two buys whose average cost 50/3 is not 4-decimal representable. -/
def ordC2 : List RawOrder :=
  [⟨some "u2", some "filled", some "AAPL", some "buy", some 1, some 10⟩,
   ⟨some "u2", some "filled", some "AAPL", some "buy", some 2, some 20⟩]

/-- Gateway quoting AAPL at 20. -/
def gwC2 : Gateway := fun _ => Except.ok [⟨"AAPL", 20⟩]

/-- One filled buy: 1 AAPL at 10. -/
def ordC3 : List RawOrder :=
  [⟨some "u3", some "filled", some "AAPL", some "buy", some 1, some 10⟩]

/-- Gateway whose batched call fails (non-200 upstream status). -/
def gwC3 : Gateway := fun _ => Except.error ()

/-- Two buys of TSLA; average cost 50/3. -/
def ordC4 : List RawOrder :=
  [⟨some "u4", some "filled", some "TSLA", some "buy", some 1, some 10⟩,
   ⟨some "u4", some "filled", some "TSLA", some "buy", some 2, some 20⟩]

/-- Gateway that succeeds but returns no quotes at all. -/
def gwC4 : Gateway := fun _ => Except.ok []

/-- The spec's all-buy example: buy 10 AAPL at 100, buy 10 AAPL at 200. -/
def ordC5 : List RawOrder :=
  [⟨some "u5", some "filled", some "AAPL", some "buy", some 10, some 100⟩,
   ⟨some "u5", some "filled", some "AAPL", some "buy", some 10, some 200⟩]

/-- Gateway quoting AAPL at 180. -/
def gwC5 : Gateway := fun _ => Except.ok [⟨"AAPL", 180⟩]

/-- The spec's fully-closed example: buy 5 MSFT at 300, sell 5 at 320. -/
def ordC6 : List RawOrder :=
  [⟨some "u6", some "filled", some "MSFT", some "buy", some 5, some 300⟩,
   ⟨some "u6", some "filled", some "MSFT", some "sell", some 5, some 320⟩]

/-- Gateway quoting MSFT at 310. -/
def gwC6 : Gateway := fun _ => Except.ok [⟨"MSFT", 310⟩]

/-- Orders across two symbols, AAPL traded twice. -/
def ordC7 : List RawOrder :=
  [⟨some "u7", some "filled", some "AAPL", some "buy", some 1, some 10⟩,
   ⟨some "u7", some "filled", some "MSFT", some "buy", some 2, some 20⟩,
   ⟨some "u7", some "filled", some "AAPL", some "sell", some 1, some 12⟩]

/-- Gateway that succeeds with no quotes. -/
def gwC7 : Gateway := fun _ => Except.ok []

/-- A well-formed AAPL buy followed by a record missing its symbol field. -/
def ordC8 : List RawOrder :=
  [⟨some "u8", some "filled", some "AAPL", some "buy", some 1, some 10⟩,
   ⟨some "u8", some "filled", none, some "buy", some 2, some 20⟩]

/-- Gateway that succeeds with no quotes. -/
def gwC8 : Gateway := fun _ => Except.ok []

/-- An order record missing the quantity field. -/
def oMissQty : RawOrder :=
  ⟨some "u8", some "filled", some "AAPL", some "buy", none, some 20⟩

/-- An order record missing the price field. -/
def oMissPrice : RawOrder :=
  ⟨some "u8", some "filled", some "AAPL", some "buy", some 5, none⟩

/-! ### Properties of the accumulator dict -/

lemma aggQty_upsert (agg : List Agg) (s t : String) (q c : ℚ) :
    aggQty (upsert agg s q c) t = aggQty agg t + (if s = t then q else 0) := by
  induction agg with
  | nil =>
    by_cases h : s = t <;> simp [upsert, aggQty, h]
  | cons a rest ih =>
    by_cases hs : a.symbol = s
    · by_cases ht : a.symbol = t
      · have hst : s = t := hs.symm.trans ht
        simp [upsert, aggQty, hs, ht, hst]
      · have hst : ¬s = t := fun h => ht (hs.trans h)
        simp [upsert, aggQty, hs, ht, hst]
    · by_cases ht : a.symbol = t
      · have hst : ¬s = t := fun h => hs (ht.trans h.symm)
        have hts : ¬t = s := fun h => hst h.symm
        simp [upsert, aggQty, hs, ht, hst, hts]
      · simp [upsert, aggQty, hs, ht, ih]

lemma aggCost_upsert (agg : List Agg) (s t : String) (q c : ℚ) :
    aggCost (upsert agg s q c) t = aggCost agg t + (if s = t then c else 0) := by
  induction agg with
  | nil =>
    by_cases h : s = t <;> simp [upsert, aggCost, h]
  | cons a rest ih =>
    by_cases hs : a.symbol = s
    · by_cases ht : a.symbol = t
      · have hst : s = t := hs.symm.trans ht
        simp [upsert, aggCost, hs, ht, hst]
      · have hst : ¬s = t := fun h => ht (hs.trans h)
        simp [upsert, aggCost, hs, ht, hst]
    · by_cases ht : a.symbol = t
      · have hst : ¬s = t := fun h => hs (ht.trans h.symm)
        have hts : ¬t = s := fun h => hst h.symm
        simp [upsert, aggCost, hs, ht, hst, hts]
      · simp [upsert, aggCost, hs, ht, ih]

lemma mem_keys_upsert (agg : List Agg) (s t : String) (q c : ℚ) :
    t ∈ (upsert agg s q c).map Agg.symbol ↔ t ∈ agg.map Agg.symbol ∨ t = s := by
  induction agg with
  | nil => simp [upsert, eq_comm]
  | cons a rest ih =>
    by_cases hs : a.symbol = s
    · subst hs
      simp [upsert]
      tauto
    · have e : upsert (a :: rest) s q c = a :: upsert rest s q c := by
        simp [upsert, hs]
      rw [e, List.map_cons, List.mem_cons, ih, List.map_cons, List.mem_cons]
      tauto

lemma nodup_keys_upsert (agg : List Agg) (s : String) (q c : ℚ)
    (h : (agg.map Agg.symbol).Nodup) :
    ((upsert agg s q c).map Agg.symbol).Nodup := by
  induction agg with
  | nil => simp [upsert]
  | cons a rest ih =>
    rw [List.map_cons, List.nodup_cons] at h
    by_cases hs : a.symbol = s
    · simpa [upsert, hs, List.nodup_cons] using h
    · rw [show upsert (a :: rest) s q c = a :: upsert rest s q c by simp [upsert, hs],
        List.map_cons, List.nodup_cons]
      refine ⟨?_, ih h.2⟩
      rw [mem_keys_upsert]
      rintro (hmem | hmem)
      · exact h.1 hmem
      · exact hs hmem

/-! ### Per-symbol sums, one order at a time -/

lemma ordersFor_cons (o : RawOrder) (rest : List RawOrder) (s : String) :
    ordersFor (o :: rest) s =
      if o.symbol.map upperStr = some s then o :: ordersFor rest s
      else ordersFor rest s := by
  by_cases h : o.symbol.map upperStr = some s
  · rw [if_pos h]
    simp only [ordersFor, List.filter_cons, decide_eq_true_eq, if_pos h]
  · rw [if_neg h]
    simp only [ordersFor, List.filter_cons, decide_eq_true_eq, if_neg h]

lemma signedQty_cons (o : RawOrder) (rest : List RawOrder) (s : String) :
    signedQty (o :: rest) s =
      (if o.symbol.map upperStr = some s then orderQty o else 0) +
        signedQty rest s := by
  by_cases h : o.symbol.map upperStr = some s <;>
    simp [signedQty, ordersFor_cons, h]

lemma signedCost_cons (o : RawOrder) (rest : List RawOrder) (s : String) :
    signedCost (o :: rest) s =
      (if o.symbol.map upperStr = some s then orderCost o else 0) +
        signedCost rest s := by
  by_cases h : o.symbol.map upperStr = some s <;>
    simp [signedCost, ordersFor_cons, h]

lemma hasSymbol_cons (o : RawOrder) (rest : List RawOrder) (s : String) :
    hasSymbol (o :: rest) s ↔
      o.symbol.map upperStr = some s ∨ hasSymbol rest s := by
  simp [hasSymbol]

/-! ### The aggregation loop computes the per-symbol sums -/

lemma aggregateFrom_ok_spec (orders : List RawOrder) :
    ∀ agg agg2, aggregateFrom agg orders = Except.ok agg2 →
      (∀ t, aggQty agg2 t = aggQty agg t + signedQty orders t) ∧
      (∀ t, aggCost agg2 t = aggCost agg t + signedCost orders t) ∧
      (∀ t, t ∈ agg2.map Agg.symbol ↔ t ∈ agg.map Agg.symbol ∨ hasSymbol orders t) ∧
      ((agg.map Agg.symbol).Nodup → (agg2.map Agg.symbol).Nodup) := by
  induction orders with
  | nil =>
    intro agg agg2 h
    simp [aggregateFrom] at h
    subst h
    simp [signedQty, signedCost, hasSymbol, ordersFor]
  | cons o rest ih =>
    intro agg agg2 h
    cases hsym : o.symbol with
    | none => rw [aggregateFrom, hsym] at h; cases h
    | some s =>
      rw [aggregateFrom, hsym] at h
      obtain ⟨h1, h2, h3, h4⟩ := ih _ _ h
      refine ⟨?_, ?_, ?_, ?_⟩
      · intro t
        rw [h1 t, aggQty_upsert, signedQty_cons, hsym]
        by_cases ht : upperStr s = t <;> simp [ht] <;> ring
      · intro t
        rw [h2 t, aggCost_upsert, signedCost_cons, hsym]
        by_cases ht : upperStr s = t <;> simp [ht] <;> ring
      · intro t
        rw [h3 t, mem_keys_upsert, hasSymbol_cons, hsym]
        by_cases ht : t = upperStr s <;> simp [ht, eq_comm] <;> tauto
      · intro hnd
        exact h4 (nodup_keys_upsert agg (upperStr s) _ _ hnd)

lemma aggregate_entries (orders : List RawOrder) (agg : List Agg)
    (h : aggregateFrom [] orders = Except.ok agg) :
    (∀ t, aggQty agg t = signedQty orders t) ∧
    (∀ t, aggCost agg t = signedCost orders t) ∧
    (∀ t, t ∈ agg.map Agg.symbol ↔ hasSymbol orders t) ∧
    (agg.map Agg.symbol).Nodup := by
  obtain ⟨h1, h2, h3, h4⟩ := aggregateFrom_ok_spec orders [] agg h
  exact ⟨fun t => by simpa [aggQty] using h1 t,
    fun t => by simpa [aggCost] using h2 t,
    fun t => by simpa using h3 t,
    h4 (by simp)⟩

lemma mem_agg_eq_lookup (agg : List Agg) (hnd : (agg.map Agg.symbol).Nodup)
    (a : Agg) (ha : a ∈ agg) :
    a.qty = aggQty agg a.symbol ∧ a.cost = aggCost agg a.symbol := by
  induction agg with
  | nil => cases ha
  | cons b rest ih =>
    rw [List.map_cons, List.nodup_cons] at hnd
    rcases List.mem_cons.mp ha with h | h
    · subst h
      simp [aggQty, aggCost]
    · have hb : ¬b.symbol = a.symbol := by
        intro e
        exact hnd.1 (e ▸ List.mem_map_of_mem Agg.symbol h)
      simp only [aggQty, aggCost, if_neg hb]
      exact ih hnd.2 h

/-! ### Characterizing getPositions runs -/

lemma getPositions_ok_elim (gw : Gateway) (orders : List RawOrder)
    (ps : List Position) (log : List (List String))
    (h : getPositions gw orders = (Except.ok ps, log)) :
    ∃ agg quotes, aggregateFrom [] orders = Except.ok agg ∧
      ps = agg.map (mkPosition quotes) := by
  unfold getPositions at h
  split at h
  · exact absurd (congrArg Prod.fst h) (by simp)
  · rename_i agg heq
    split at h
    · rename_i hemp
      refine ⟨agg, [], heq, ?_⟩
      have : agg = [] := by
        cases agg with
        | nil => rfl
        | cons a r => simp at hemp
      subst this
      simpa using (congrArg Prod.fst h).symm
    · split at h
      · exact absurd (congrArg Prod.fst h) (by simp)
      · rename_i quotes hgw
        refine ⟨agg, quotes, heq, ?_⟩
        have := congrArg Prod.fst h
        simpa using this.symm

lemma map_ne_nil_isEmpty (agg : List Agg) (h : agg ≠ []) :
    (agg.map Agg.symbol).isEmpty = false := by
  cases agg with
  | nil => exact absurd rfl h
  | cons a r => rfl

lemma getPositions_eq_of_ok (gw : Gateway) (orders : List RawOrder)
    (agg : List Agg) (quotes : List Quote)
    (h1 : aggregateFrom [] orders = Except.ok agg) (h2 : agg ≠ [])
    (h3 : gw (agg.map Agg.symbol) = Except.ok quotes) :
    getPositions gw orders =
      (Except.ok (agg.map (mkPosition quotes)), [agg.map Agg.symbol]) := by
  unfold getPositions
  rw [h1]
  simp only [map_ne_nil_isEmpty agg h2, Bool.false_eq_true, if_false, h3]

lemma getPositions_eq_of_gwfail (gw : Gateway) (orders : List RawOrder)
    (agg : List Agg)
    (h1 : aggregateFrom [] orders = Except.ok agg) (h2 : agg ≠ [])
    (h3 : gw (agg.map Agg.symbol) = Except.error ()) :
    getPositions gw orders =
      (Except.error PosError.gatewayFailed, [agg.map Agg.symbol]) := by
  unfold getPositions
  rw [h1]
  simp only [map_ne_nil_isEmpty agg h2, Bool.false_eq_true, if_false, h3]

lemma getPositions_log (gw : Gateway) (orders : List RawOrder) (agg : List Agg)
    (h1 : aggregateFrom [] orders = Except.ok agg) (h2 : agg ≠ []) :
    (getPositions gw orders).2 = [agg.map Agg.symbol] := by
  cases hgw : gw (agg.map Agg.symbol) with
  | error u =>
    cases u
    rw [getPositions_eq_of_gwfail gw orders agg h1 h2 hgw]
  | ok quotes =>
    rw [getPositions_eq_of_ok gw orders agg quotes h1 h2 hgw]

/-! ### Field values of an output position -/

lemma mkPosition_symbol (quotes : List Quote) (a : Agg) :
    (mkPosition quotes a).symbol = a.symbol := rfl

lemma mkPosition_quantity (quotes : List Quote) (a : Agg) :
    (mkPosition quotes a).quantity = a.qty := rfl

lemma mkPosition_avg_price (quotes : List Quote) (a : Agg) :
    (mkPosition quotes a).avg_price =
      py_round (if a.qty ≠ 0 then a.cost / |a.qty| else 0) 4 := rfl

lemma mkPosition_last (quotes : List Quote) (a : Agg) :
    (mkPosition quotes a).last = (qlookup quotes a.symbol).getD 0 := rfl

lemma mkPosition_pnl (quotes : List Quote) (a : Agg) :
    (mkPosition quotes a).unrealized_pnl =
      py_round (((qlookup quotes a.symbol).getD 0 -
        (if a.qty ≠ 0 then a.cost / |a.qty| else 0)) * a.qty) 2 := rfl

lemma py_round_zero (n : ℕ) : py_round 0 n = 0 := by
  norm_num [py_round]

/-- An output position's fields, expressed through the per-symbol sums
over the input order list. -/
lemma position_fields (gw : Gateway) (orders : List RawOrder)
    (ps : List Position) (log : List (List String))
    (h : getPositions gw orders = (Except.ok ps, log))
    (p : Position) (hp : p ∈ ps) :
    ∃ quotes : List Quote,
      p.quantity = signedQty orders p.symbol ∧
      p.avg_price = py_round (avgCost orders p.symbol) 4 ∧
      p.last = (qlookup quotes p.symbol).getD 0 ∧
      p.unrealized_pnl =
        py_round ((p.last - avgCost orders p.symbol) * p.quantity) 2 := by
  obtain ⟨agg, quotes, hagg, hps⟩ := getPositions_ok_elim gw orders ps log h
  obtain ⟨h1, h2, _h3, h4⟩ := aggregate_entries orders agg hagg
  subst hps
  obtain ⟨a, ha, rfl⟩ := List.mem_map.mp hp
  obtain ⟨hq, hc⟩ := mem_agg_eq_lookup agg h4 a ha
  have hqe : a.qty = signedQty orders a.symbol := by rw [hq, h1]
  have hce : a.cost = signedCost orders a.symbol := by rw [hc, h2]
  have havg : (if a.qty ≠ 0 then a.cost / |a.qty| else 0) =
      avgCost orders a.symbol := by
    rw [avgCost, hqe, hce]
  refine ⟨quotes, ?_, ?_, ?_, ?_⟩
  · rw [mkPosition_quantity, mkPosition_symbol, hqe]
  · rw [mkPosition_avg_price, mkPosition_symbol, havg]
  · rw [mkPosition_last, mkPosition_symbol]
  · rw [mkPosition_pnl, mkPosition_last, mkPosition_quantity, mkPosition_symbol, havg]

/-! ### Helpers about per-symbol sums and aggregation entries -/

lemma mem_ordersFor (orders : List RawOrder) (s : String) (o : RawOrder) :
    o ∈ ordersFor orders s ↔ o ∈ orders ∧ o.symbol.map upperStr = some s := by
  simp [ordersFor, List.mem_filter]

lemma signedQty_eq_qtySum (orders : List RawOrder) (s : String)
    (hbuy : ∀ o ∈ orders, o.symbol.map upperStr = some s → o.side = some "buy") :
    signedQty orders s = qtySum orders s := by
  unfold signedQty qtySum
  refine congrArg List.sum (List.map_congr_left ?_)
  intro o ho
  obtain ⟨hmem, hsym⟩ := (mem_ordersFor orders s o).mp ho
  rw [orderQty, sideMult, if_pos (hbuy o hmem hsym), mul_one]

lemma signedCost_eq_costSum (orders : List RawOrder) (s : String)
    (hbuy : ∀ o ∈ orders, o.symbol.map upperStr = some s → o.side = some "buy") :
    signedCost orders s = costSum orders s := by
  unfold signedCost costSum
  refine congrArg List.sum (List.map_congr_left ?_)
  intro o ho
  obtain ⟨hmem, hsym⟩ := (mem_ordersFor orders s o).mp ho
  rw [orderCost, sideMult, if_pos (hbuy o hmem hsym), mul_one]

lemma qtySum_pos (orders : List RawOrder) (s : String)
    (hs : hasSymbol orders s)
    (hq : ∀ o ∈ orders, o.symbol.map upperStr = some s → 0 < o.quantity.getD 0) :
    0 < qtySum orders s := by
  unfold qtySum
  apply List.sum_pos
  · intro x hx
    obtain ⟨o, ho, rfl⟩ := List.mem_map.mp hx
    obtain ⟨hmem, hsym⟩ := (mem_ordersFor orders s o).mp ho
    exact hq o hmem hsym
  · obtain ⟨o, ho, hsym⟩ := hs
    exact List.ne_nil_of_mem
      (List.mem_map_of_mem _ ((mem_ordersFor orders s o).mpr ⟨ho, hsym⟩))

lemma agg_entry_for_symbol (orders : List RawOrder) (agg : List Agg) (s : String)
    (hagg : aggregateFrom [] orders = Except.ok agg) (hs : hasSymbol orders s) :
    ∃ a ∈ agg, a.symbol = s ∧ a.qty = signedQty orders s ∧
      a.cost = signedCost orders s := by
  obtain ⟨h1, h2, h3, h4⟩ := aggregate_entries orders agg hagg
  obtain ⟨a, ha, hsym⟩ := List.mem_map.mp ((h3 s).mpr hs)
  obtain ⟨hq, hc⟩ := mem_agg_eq_lookup agg h4 a ha
  exact ⟨a, ha, hsym, by rw [hq, hsym, h1], by rw [hc, hsym, h2]⟩

lemma map_symbol_mkPosition (quotes : List Quote) (agg : List Agg) :
    (agg.map (mkPosition quotes)).map Position.symbol = agg.map Agg.symbol := by
  rw [List.map_map]
  exact List.map_congr_left fun a _ => rfl

lemma aggregateFrom_isOk (orders : List RawOrder) :
    ∀ agg, (∃ agg2, aggregateFrom agg orders = Except.ok agg2) ↔
      ∀ o ∈ orders, o.symbol ≠ none := by
  induction orders with
  | nil =>
    intro agg
    simp [aggregateFrom]
  | cons o rest ih =>
    intro agg
    cases hsym : o.symbol with
    | none => simp [aggregateFrom, hsym, List.forall_mem_cons]
    | some s => simp [aggregateFrom, hsym, ih, List.forall_mem_cons]

/-! ### Claims -/

/-- C1 (counterexample): on a pure short position (sell 5 AAPL at 100),
the code returns `avg_price = -100` (`cost / abs(qty)` keeps the cost's
sign), while the claim's formula `abs(signed_cost) / abs(signed_qty)`
gives `+100`: the returned value differs from the claimed one, both
before and after 4-decimal rounding. -/
theorem C1_counterexample :
    getPositions gwC1 ordC1 =
      (Except.ok [⟨"AAPL", -5, -100, 90, -950⟩], [["AAPL"]]) ∧
    signedQty ordC1 "AAPL" = -5 ∧
    signedCost ordC1 "AAPL" = -500 ∧
    |signedCost ordC1 "AAPL"| / |signedQty ordC1 "AAPL"| = 100 ∧
    py_round (|signedCost ordC1 "AAPL"| / |signedQty ordC1 "AAPL"|) 4 = 100 ∧
    ¬((-100 : ℚ) = 100) := by
  have hu : upperStr "AAPL" = "AAPL" := by decide
  refine ⟨?_, ?_, ?_, ?_, ?_, by norm_num⟩
  · simp [getPositions, aggregateFrom, upsert, ordC1, gwC1, hu, orderQty,
      orderCost, sideMult, mkPosition, qlookup, Position.mk.injEq]
    norm_num [py_round, Int.fract]
  · simp [signedQty, ordersFor, ordC1, hu, orderQty, sideMult]
  · simp [signedCost, ordersFor, ordC1, hu, orderCost, sideMult]
    norm_num
  · simp [signedQty, signedCost, ordersFor, ordC1, hu, orderQty, orderCost,
      sideMult]
    norm_num
  · simp [signedQty, signedCost, ordersFor, ordC1, hu, orderQty, orderCost,
      sideMult]
    norm_num [py_round, Int.fract]

/-- C1 (amended): for every position returned by `getPositions`,
`avg_price` is the 4-decimal rounding of `signed_cost / abs(signed_qty)`
when `signed_qty ≠ 0` (the cost keeps its sign, so a pure short position
gets a negative `avg_price`), and `0` when `signed_qty = 0`. -/
theorem C1_avg_price_signed (gw : Gateway) (orders : List RawOrder)
    (ps : List Position) (log : List (List String))
    (h : getPositions gw orders = (Except.ok ps, log))
    (p : Position) (hp : p ∈ ps) :
    p.avg_price = py_round (avgCost orders p.symbol) 4 := by
  obtain ⟨quotes, h1, h2, h3, h4⟩ := position_fields gw orders ps log h p hp
  exact h2

/-- Witness for C1: the amended claim applied to the short-sale vector. -/
theorem C1_avg_price_signed_witness :
    (Position.mk "AAPL" (-5) (-100) 90 (-950)).avg_price =
      py_round (avgCost ordC1 "AAPL") 4 := by
  have hu : upperStr "AAPL" = "AAPL" := by decide
  have hrun : getPositions gwC1 ordC1 =
      (Except.ok [⟨"AAPL", -5, -100, 90, -950⟩], [["AAPL"]]) := by
    simp [getPositions, aggregateFrom, upsert, ordC1, gwC1, hu, orderQty,
      orderCost, sideMult, mkPosition, qlookup, Position.mk.injEq]
    norm_num [py_round, Int.fract]
  exact C1_avg_price_signed gwC1 ordC1 _ _ hrun _ (List.mem_singleton.mpr rfl)

/-- C2 (counterexample): with buys of 1 AAPL at 10 and 2 AAPL at 20 and a
quote of 20, the returned position is
`{quantity 3, avg_price 16.6667, last 20, unrealized_pnl 10.00}`, but
`(last - avg_price) * quantity = (20 - 16.6667) * 3 = 9.9999 ≠ 10.00`:
the returned `unrealized_pnl` is not computed from the returned
(4-decimal-rounded) `avg_price`. -/
theorem C2_counterexample :
    getPositions gwC2 ordC2 =
      (Except.ok [⟨"AAPL", 3, 166667/10000, 20, 10⟩], [["AAPL"]]) ∧
    (20 - (166667/10000 : ℚ)) * 3 = 99999/10000 ∧
    ¬((10 : ℚ) = 99999/10000) := by
  have hu : upperStr "AAPL" = "AAPL" := by decide
  refine ⟨?_, by norm_num, by norm_num⟩
  simp [getPositions, aggregateFrom, upsert, ordC2, gwC2, hu, orderQty,
    orderCost, sideMult, mkPosition, qlookup, Position.mk.injEq]
  norm_num [py_round, Int.fract]

/-- C2 (amended): for every position returned by `getPositions`, the
returned `unrealized_pnl` equals `(last - avg_cost) * quantity` rounded
to 2 decimal places, where `avg_cost` is the un-rounded average cost
(`signed_cost / abs(signed_qty)`, `0` at zero quantity) — not the
rounded `avg_price` field. -/
theorem C2_pnl_unrounded_avg (gw : Gateway) (orders : List RawOrder)
    (ps : List Position) (log : List (List String))
    (h : getPositions gw orders = (Except.ok ps, log))
    (p : Position) (hp : p ∈ ps) :
    p.unrealized_pnl =
      py_round ((p.last - avgCost orders p.symbol) * p.quantity) 2 := by
  obtain ⟨quotes, h1, h2, h3, h4⟩ := position_fields gw orders ps log h p hp
  exact h4

/-- Witness for C2: the amended claim applied to the two-buy vector. -/
theorem C2_pnl_unrounded_avg_witness :
    (Position.mk "AAPL" 3 (166667/10000) 20 10).unrealized_pnl =
      py_round ((20 - avgCost ordC2 "AAPL") * 3) 2 := by
  have hu : upperStr "AAPL" = "AAPL" := by decide
  have hrun : getPositions gwC2 ordC2 =
      (Except.ok [⟨"AAPL", 3, 166667/10000, 20, 10⟩], [["AAPL"]]) := by
    simp [getPositions, aggregateFrom, upsert, ordC2, gwC2, hu, orderQty,
      orderCost, sideMult, mkPosition, qlookup, Position.mk.injEq]
    norm_num [py_round, Int.fract]
  exact C2_pnl_unrounded_avg gwC2 ordC2 _ _ hrun _ (List.mem_singleton.mpr rfl)

/-- C3: if the batched gateway call fails (non-success status), a
`getPositions` request for a user with at least one aggregated filled
order fails as a whole: the result is an error, not a partial position
list with `last = 0`. -/
theorem C3_gateway_failure_fails_whole (gw : Gateway) (orders : List RawOrder)
    (agg : List Agg)
    (h1 : aggregateFrom [] orders = Except.ok agg) (h2 : agg ≠ [])
    (h3 : gw (agg.map Agg.symbol) = Except.error ()) :
    getPositions gw orders =
      (Except.error PosError.gatewayFailed, [agg.map Agg.symbol]) :=
  getPositions_eq_of_gwfail gw orders agg h1 h2 h3

/-- Witness for C3: one filled buy and a failing gateway produce an
error result and no position list. -/
theorem C3_gateway_failure_fails_whole_witness :
    getPositions gwC3 ordC3 =
      (Except.error PosError.gatewayFailed, [["AAPL"]]) := by
  have hu : upperStr "AAPL" = "AAPL" := by decide
  have h1 : aggregateFrom [] ordC3 = Except.ok [⟨"AAPL", 1, 10⟩] := by
    simp [aggregateFrom, upsert, ordC3, hu, orderQty, orderCost, sideMult,
      Agg.mk.injEq] <;> norm_num
  exact C3_gateway_failure_fails_whole gwC3 ordC3 [⟨"AAPL", 1, 10⟩] h1
    (by simp) rfl

/-- C4 (counterexample): with buys of 1 TSLA at 10 and 2 TSLA at 20 and
a successful gateway response containing no TSLA quote, the returned
position has `last = 0` and `unrealized_pnl = -50.00`, but
`-avg_price * quantity = -16.6667 * 3 = -50.0001 ≠ -50.00`: the claimed
equation fails for the returned fields (the pnl comes from the
un-rounded average cost). -/
theorem C4_counterexample :
    getPositions gwC4 ordC4 =
      (Except.ok [⟨"TSLA", 3, 166667/10000, 0, -50⟩], [["TSLA"]]) ∧
    -(166667/10000 : ℚ) * 3 = -500001/10000 ∧
    ¬((-50 : ℚ) = -500001/10000) := by
  have hu : upperStr "TSLA" = "TSLA" := by decide
  refine ⟨?_, by norm_num, by norm_num⟩
  simp [getPositions, aggregateFrom, upsert, ordC4, gwC4, hu, orderQty,
    orderCost, sideMult, mkPosition, qlookup, Position.mk.injEq]
  norm_num [py_round, Int.fract]

/-- C4 (amended): if the gateway call succeeds but its response has no
quote for a symbol `s` that has at least one filled order, the returned
list still contains one position per aggregated symbol; the one for `s`
has `last = 0` and `unrealized_pnl = round2(-avg_cost * signed_qty)`
computed from the un-rounded average cost, and every other aggregated
symbol also gets its position. -/
theorem C4_partial_quote_gap (gw : Gateway) (orders : List RawOrder)
    (agg : List Agg) (quotes : List Quote) (s : String)
    (h1 : aggregateFrom [] orders = Except.ok agg) (h2 : agg ≠ [])
    (h3 : gw (agg.map Agg.symbol) = Except.ok quotes)
    (hs : hasSymbol orders s) (hmiss : qlookup quotes s = none) :
    ∃ ps, getPositions gw orders = (Except.ok ps, [agg.map Agg.symbol]) ∧
      ps.length = agg.length ∧
      (∀ t, hasSymbol orders t → ∃ p ∈ ps, p.symbol = t) ∧
      (∃ p ∈ ps, p.symbol = s ∧ p.last = 0 ∧
        p.unrealized_pnl =
          py_round (-(avgCost orders s) * signedQty orders s) 2) := by
  refine ⟨agg.map (mkPosition quotes),
    getPositions_eq_of_ok gw orders agg quotes h1 h2 h3,
    List.length_map agg (mkPosition quotes), ?_, ?_⟩
  · intro t ht
    obtain ⟨a, ha, hsym, _, _⟩ := agg_entry_for_symbol orders agg t h1 ht
    exact ⟨mkPosition quotes a, List.mem_map_of_mem _ ha, hsym⟩
  · obtain ⟨a, ha, hsym, hq, hc⟩ := agg_entry_for_symbol orders agg s h1 hs
    refine ⟨mkPosition quotes a, List.mem_map_of_mem _ ha, ?_, ?_, ?_⟩
    · rw [mkPosition_symbol]; exact hsym
    · rw [mkPosition_last, hsym, hmiss]; rfl
    · rw [mkPosition_pnl, hsym, hmiss]
      have havg : (if a.qty ≠ 0 then a.cost / |a.qty| else 0) =
          avgCost orders s := by
        rw [avgCost, hq, hc]
      rw [havg, hq]
      norm_num

/-- Witness for C4: the amended claim applied to the TSLA vector with a
quoteless gateway response. -/
theorem C4_partial_quote_gap_witness :
    ∃ ps, getPositions gwC4 ordC4 = (Except.ok ps, [["TSLA"]]) ∧
      ps.length = 1 ∧
      (∀ t, hasSymbol ordC4 t → ∃ p ∈ ps, p.symbol = t) ∧
      (∃ p ∈ ps, p.symbol = "TSLA" ∧ p.last = 0 ∧
        p.unrealized_pnl =
          py_round (-(avgCost ordC4 "TSLA") * signedQty ordC4 "TSLA") 2) := by
  have hu : upperStr "TSLA" = "TSLA" := by decide
  have h1 : aggregateFrom [] ordC4 = Except.ok [⟨"TSLA", 3, 50⟩] := by
    simp [aggregateFrom, upsert, ordC4, hu, orderQty, orderCost, sideMult,
      Agg.mk.injEq] <;> norm_num
  exact C4_partial_quote_gap gwC4 ordC4 [⟨"TSLA", 3, 50⟩] [] "TSLA" h1
    (by simp) rfl (by decide) rfl

/-- C5: if every filled order for symbol `s` is a buy (with positive
quantity), the returned position for `s` has `quantity` equal to the sum
of the order quantities and `avg_price` equal to the quantity-weighted
mean of the executed prices, rounded to 4 decimal places. -/
theorem C5_all_buys_weighted_mean (gw : Gateway) (orders : List RawOrder)
    (ps : List Position) (log : List (List String)) (s : String)
    (h : getPositions gw orders = (Except.ok ps, log))
    (hs : hasSymbol orders s)
    (hbuy : ∀ o ∈ orders, o.symbol.map upperStr = some s →
      o.side = some "buy" ∧ 0 < o.quantity.getD 0) :
    ∃ p ∈ ps, p.symbol = s ∧ p.quantity = qtySum orders s ∧
      p.avg_price = py_round (costSum orders s / qtySum orders s) 4 := by
  obtain ⟨agg, quotes, hagg, hps⟩ := getPositions_ok_elim gw orders ps log h
  obtain ⟨a, ha, hsym, hq, hc⟩ := agg_entry_for_symbol orders agg s hagg hs
  subst hps
  have hside : ∀ o ∈ orders, o.symbol.map upperStr = some s →
      o.side = some "buy" := fun o ho hos => (hbuy o ho hos).1
  have hsq : signedQty orders s = qtySum orders s :=
    signedQty_eq_qtySum orders s hside
  have hsc : signedCost orders s = costSum orders s :=
    signedCost_eq_costSum orders s hside
  have hpos : 0 < qtySum orders s :=
    qtySum_pos orders s hs (fun o ho hos => (hbuy o ho hos).2)
  refine ⟨mkPosition quotes a, List.mem_map_of_mem _ ha, ?_, ?_, ?_⟩
  · rw [mkPosition_symbol]; exact hsym
  · rw [mkPosition_quantity, hq, hsq]
  · rw [mkPosition_avg_price, hq, hc, hsq, hsc,
      if_pos (ne_of_gt hpos), abs_of_pos hpos]

/-- Witness for C5: the spec's example — buys of 10 at 100 and 10 at 200
with a quote of 180 yield quantity 20, avg_price 150, last 180,
unrealized_pnl 600. -/
theorem C5_all_buys_weighted_mean_witness :
    getPositions gwC5 ordC5 =
      (Except.ok [⟨"AAPL", 20, 150, 180, 600⟩], [["AAPL"]]) ∧
    ∃ p ∈ [(⟨"AAPL", 20, 150, 180, 600⟩ : Position)], p.symbol = "AAPL" ∧
      p.quantity = qtySum ordC5 "AAPL" ∧
      p.avg_price = py_round (costSum ordC5 "AAPL" / qtySum ordC5 "AAPL") 4 := by
  have hu : upperStr "AAPL" = "AAPL" := by decide
  have hrun : getPositions gwC5 ordC5 =
      (Except.ok [⟨"AAPL", 20, 150, 180, 600⟩], [["AAPL"]]) := by
    simp [getPositions, aggregateFrom, upsert, ordC5, gwC5, hu, orderQty,
      orderCost, sideMult, mkPosition, qlookup, Position.mk.injEq] <;>
      norm_num [py_round, Int.fract]
  refine ⟨hrun, ?_⟩
  exact C5_all_buys_weighted_mean gwC5 ordC5 _ _ "AAPL" hrun (by decide)
    (by simp [ordC5, List.forall_mem_cons, hu] <;> norm_num)

/-- C6: a symbol whose filled buys exactly cancel its filled sells is
still returned, with `quantity = 0`, `avg_price = 0` (zero-quantity
fallback) and `unrealized_pnl = 0` whatever the quoted price; and the
output has exactly one position per distinct symbol that had at least
one filled order. -/
theorem C6_fully_closed_included (gw : Gateway) (orders : List RawOrder)
    (ps : List Position) (log : List (List String)) (s : String)
    (h : getPositions gw orders = (Except.ok ps, log))
    (hs : hasSymbol orders s) (hzero : signedQty orders s = 0) :
    (∃ p ∈ ps, p.symbol = s ∧ p.quantity = 0 ∧ p.avg_price = 0 ∧
      p.unrealized_pnl = 0) ∧
    (ps.map Position.symbol).Nodup ∧
    (∀ t, t ∈ ps.map Position.symbol ↔ hasSymbol orders t) := by
  obtain ⟨agg, quotes, hagg, hps⟩ := getPositions_ok_elim gw orders ps log h
  obtain ⟨h1, h2, h3, h4⟩ := aggregate_entries orders agg hagg
  subst hps
  refine ⟨?_, ?_, ?_⟩
  · obtain ⟨a, ha, hsym, hq, _⟩ := agg_entry_for_symbol orders agg s hagg hs
    have hq0 : a.qty = 0 := by rw [hq, hzero]
    refine ⟨mkPosition quotes a, List.mem_map_of_mem _ ha, ?_, ?_, ?_, ?_⟩
    · rw [mkPosition_symbol]; exact hsym
    · rw [mkPosition_quantity]; exact hq0
    · rw [mkPosition_avg_price, hq0]
      simp [py_round_zero]
    · rw [mkPosition_pnl, hq0, mul_zero, py_round_zero]
  · rw [map_symbol_mkPosition]; exact h4
  · intro t
    rw [map_symbol_mkPosition]; exact h3 t

/-- Witness for C6: the spec's example — buy 5 MSFT at 300, sell 5 at
320, quote 310: position returned with quantity 0, avg_price 0, pnl 0. -/
theorem C6_fully_closed_included_witness :
    getPositions gwC6 ordC6 =
      (Except.ok [⟨"MSFT", 0, 0, 310, 0⟩], [["MSFT"]]) ∧
    (∃ p ∈ [(⟨"MSFT", 0, 0, 310, 0⟩ : Position)], p.symbol = "MSFT" ∧
      p.quantity = 0 ∧ p.avg_price = 0 ∧ p.unrealized_pnl = 0) ∧
    (["MSFT"] : List String).Nodup ∧
    ("MSFT" ∈ (["MSFT"] : List String) ↔ hasSymbol ordC6 "MSFT") := by
  have hu : upperStr "MSFT" = "MSFT" := by decide
  have hrun : getPositions gwC6 ordC6 =
      (Except.ok [⟨"MSFT", 0, 0, 310, 0⟩], [["MSFT"]]) := by
    simp [getPositions, aggregateFrom, upsert, ordC6, gwC6, hu, orderQty,
      orderCost, sideMult, mkPosition, qlookup, Position.mk.injEq] <;>
      norm_num [py_round, Int.fract]
  have hzero : signedQty ordC6 "MSFT" = 0 := by
    simp [signedQty, ordersFor, ordC6, hu, orderQty, sideMult] <;> norm_num
  have H := C6_fully_closed_included gwC6 ordC6 _ _ "MSFT" hrun (by decide)
    hzero
  exact ⟨hrun, H.1, H.2.1, H.2.2 "MSFT"⟩

/-- C7: whenever aggregation produces a non-empty symbol set, the run
performs exactly one batched gateway call, whose argument is the full
duplicate-free list of distinct (uppercased) symbols of the user's
filled orders — never one call per symbol. -/
theorem C7_single_batched_lookup (gw : Gateway) (orders : List RawOrder)
    (agg : List Agg)
    (h1 : aggregateFrom [] orders = Except.ok agg) (h2 : agg ≠ []) :
    (getPositions gw orders).2 = [agg.map Agg.symbol] ∧
    (agg.map Agg.symbol).Nodup ∧
    (∀ t, t ∈ agg.map Agg.symbol ↔ hasSymbol orders t) := by
  obtain ⟨_, _, h3, h4⟩ := aggregate_entries orders agg h1
  exact ⟨getPositions_log gw orders agg h1 h2, h4, h3⟩

/-- Witness for C7: three orders over two symbols give exactly one
gateway call carrying both distinct symbols. -/
theorem C7_single_batched_lookup_witness :
    (getPositions gwC7 ordC7).2 = [["AAPL", "MSFT"]] ∧
    (["AAPL", "MSFT"] : List String).Nodup ∧
    ("MSFT" ∈ (["AAPL", "MSFT"] : List String) ↔ hasSymbol ordC7 "MSFT") := by
  have hu1 : upperStr "AAPL" = "AAPL" := by decide
  have hu2 : upperStr "MSFT" = "MSFT" := by decide
  have h1 : aggregateFrom [] ordC7 =
      Except.ok [⟨"AAPL", 0, -2⟩, ⟨"MSFT", 2, 40⟩] := by
    simp [aggregateFrom, upsert, ordC7, hu1, hu2, orderQty, orderCost,
      sideMult, Agg.mk.injEq] <;> norm_num
  have H := C7_single_batched_lookup gwC7 ordC7
    [⟨"AAPL", 0, -2⟩, ⟨"MSFT", 2, 40⟩] h1 (by simp)
  exact ⟨H.1, H.2.1, H.2.2 "MSFT"⟩

/-- C8 (counterexample): a history holding a well-formed AAPL buy plus a
record with no symbol field makes the whole `getPositions` request fail
(`None.upper()` raises): the aggregation of the other symbol does NOT
survive, contradicting the claim that a missing symbol field is
tolerated. -/
theorem C8_counterexample :
    getPositions gwC8 ordC8 = (Except.error PosError.missingSymbol, []) ∧
    hasSymbol ordC8 "AAPL" := by
  constructor
  · simp [getPositions, aggregateFrom, ordC8]
  · decide

/-- C8 (amended): an order missing the quantity field contributes zero
to both accumulators and an order missing the price field contributes
zero to the cost accumulator (its quantity still counts toward the
quantity accumulator); such orders never crash aggregation — the
aggregation loop succeeds exactly when every order has a symbol field,
and fails as a whole when one does not. -/
theorem C8_malformed_numeric_fields (orders : List RawOrder) :
    (∀ o ∈ orders, o.quantity = none → orderQty o = 0 ∧ orderCost o = 0) ∧
    (∀ o ∈ orders, o.price = none → orderCost o = 0) ∧
    ((∃ agg, aggregateFrom [] orders = Except.ok agg) ↔
      ∀ o ∈ orders, o.symbol ≠ none) := by
  refine ⟨?_, ?_, aggregateFrom_isOk orders []⟩
  · intro o _ hq
    simp [orderQty, orderCost, hq]
  · intro o _ hp
    simp [orderCost, hp]

/-- Witness for C8: concrete malformed records — a missing quantity
zeroes both contributions, a missing price zeroes only the cost. -/
theorem C8_malformed_numeric_fields_witness :
    (orderQty oMissQty = 0 ∧ orderCost oMissQty = 0) ∧
    orderCost oMissPrice = 0 ∧
    (∃ agg, aggregateFrom [] [oMissQty, oMissPrice] = Except.ok agg) := by
  have H := C8_malformed_numeric_fields [oMissQty, oMissPrice]
  refine ⟨H.1 oMissQty (List.mem_cons_self _ _) rfl,
    H.2.1 oMissPrice (List.mem_cons_of_mem _ (List.mem_cons_self _ _)) rfl,
    (H.2.2).mpr ?_⟩
  intro o ho
  rcases List.mem_cons.mp ho with h | h
  · subst h; simp [oMissQty]
  · rcases List.mem_cons.mp h with h2 | h2
    · subst h2; simp [oMissPrice]
    · cases h2

/-- C9: the Order schema (pydantic `gt=0` constraints) accepts an order
only when `quantity > 0` and `price > 0`; any request with
`quantity ≤ 0` or `price ≤ 0` is rejected, so every stored order that
feeds aggregation satisfies the invariant. -/
theorem C9_order_validation_positive (uid sym sd : String)
    (quantity price : ℚ) (status : String) :
    (∀ o : Order, mkOrder uid sym sd quantity price status = some o →
      0 < o.quantity ∧ 0 < o.price) ∧
    (quantity ≤ 0 ∨ price ≤ 0 →
      mkOrder uid sym sd quantity price status = none) := by
  constructor
  · intro o h
    unfold mkOrder at h
    split at h
    · rename_i hc
      cases h
      exact ⟨hc.2.1, hc.2.2.1⟩
    · cases h
  · intro hle
    unfold mkOrder
    rw [if_neg]
    rintro ⟨-, hq, hp, -⟩
    rcases hle with h | h
    · exact absurd hq (not_lt.mpr h)
    · exact absurd hp (not_lt.mpr h)

/-- Witness for C9: a valid order (5 at 100) passes with positive
fields; one with quantity -1 is rejected. -/
theorem C9_order_validation_positive_witness :
    (0 < (5 : ℚ) ∧ 0 < (100 : ℚ)) ∧
    mkOrder "u9" "AAPL" "buy" (-1) 100 "filled" = none := by
  constructor
  · refine (C9_order_validation_positive "u9" "AAPL" "buy" 5 100 "filled").1
      ⟨"u9", "AAPL", "buy", 5, 100, "filled"⟩ ?_
    rw [mkOrder, if_pos]
    refine ⟨Or.inl rfl, by norm_num, by norm_num, Or.inl rfl⟩
  · exact (C9_order_validation_positive "u9" "AAPL" "buy" (-1) 100 "filled").2
      (Or.inl (by norm_num))

/-- C10: every order that `create_order` successfully stores has
status "filled" and its symbol uppercased, whatever the request said;
it therefore matches the positions query filter
`{"user_id": ..., "status": "filled"}` immediately, and no request can
produce a stored order with status "open" or "cancelled". -/
theorem C10_create_order_filled (i : OrderIn) (o : Order)
    (h : createOrder i = some o) :
    o.status = "filled" ∧ o.symbol = upperStr i.symbol ∧
    o.user_id = i.user_id ∧
    positionsQueryFilter i.user_id o = true ∧
    o.status ≠ "open" ∧ o.status ≠ "cancelled" := by
  unfold createOrder mkOrder at h
  split at h
  · cases h
    refine ⟨rfl, rfl, rfl, ?_,
      (by decide : ("filled" : String) ≠ "open"),
      (by decide : ("filled" : String) ≠ "cancelled")⟩
    simp [positionsQueryFilter]
  · cases h

/-- Witness for C10: creating an order for lowercase "msft" stores a
filled, uppercased order that the positions query selects. -/
theorem C10_create_order_filled_witness :
    ("filled" : String) = "filled" ∧
    ("MSFT" : String) = upperStr "msft" ∧
    ("u10" : String) = "u10" ∧
    positionsQueryFilter "u10" ⟨"u10", "MSFT", "buy", 1, 10, "filled"⟩ = true ∧
    ("filled" : String) ≠ "open" ∧ ("filled" : String) ≠ "cancelled" := by
  have hu : upperStr "msft" = "MSFT" := by decide
  refine C10_create_order_filled ⟨"u10", "msft", "buy", 1, 10⟩
    ⟨"u10", "MSFT", "buy", 1, 10, "filled"⟩ ?_
  rw [createOrder, mkOrder, if_pos]
  · rw [hu]
  · refine ⟨Or.inl rfl, by norm_num, by norm_num, Or.inl rfl⟩
